import Mathlib

/-!
Verification of the pulse_adjoint constitutive-law and optimization-target
layer.  The definitions below are shallow embeddings of the Python sources:
`pulse_adjoint/material.py` (material models, invariants, stresses),
`optimization_targets.py` (misfit targets and regularization) and
`pulse_adjoint/setup_optimization.py` (the reduced-functional driver).
Exact rational arithmetic (`ℚ`) is used wherever the source only performs
field operations; the exponential material laws are embedded over `ℝ`.
-/

open Matrix

namespace PulseAdjoint

/-- The closed set of active-model tags accepted by `Material.__init__`
(`material.py`, lines 30-32). -/
def activeModels : List String :=
  ["active_stress", "active_strain", "active_strain_rossi"]

/-- The active-model tag as a closed tagged variant.  The source stores the
tag as a string and branches on it; after the constructor check the tag is
always one of these three. -/
inductive ActiveModel
  | active_stress
  | active_strain
  | active_strain_rossi
deriving DecidableEq

namespace Material

/-- The constructor check of `Material.__init__` (`material.py`, lines 30-32):
an `assert` that the active-model tag is in the closed set, raising a
configuration error (an `AssertionError`) otherwise. -/
def initCheck (tag : String) : Except String Unit :=
  if tag ∈ activeModels then Except.ok ()
  else Except.error ("The active model " ++ tag ++ " is not implemented.")

/-- Resolution of the `T_ref` constructor argument (`material.py`,
lines 34-37): `None` defaults to `300.0` for `active_stress` and to `1.0`
for the active-strain models. -/
def resolveTref (model : ActiveModel) (tref : Option ℚ) : ℚ :=
  match tref with
  | none => if model = ActiveModel.active_stress then 300 else 1
  | some t => t

/-- `Material.Wactive` (`material.py`, lines 146-156).  In `active_stress`
mode, `diff = 0` yields `T_ref*gamma*I4f` and `diff = 1` yields `gamma`
(note: not `T_ref*gamma`); any other `diff` falls off the end of the Python
function, returning `None` (here `none`).  Outside `active_stress` mode the
function returns `0` for every `diff`. -/
def Wactive {K : Type} [CommRing K] (model : ActiveModel)
    (tref gamma i4f : K) (diff : ℕ) : Option K :=
  match model with
  | ActiveModel.active_stress =>
      if diff = 0 then some (tref * gamma * i4f)
      else if diff = 1 then some gamma
      else none
  | _ => some 0

/-- `Material.I1` (`material.py`, lines 158-165): the first isotropic
invariant `tr(Fᵀ F)`. -/
def I1 {K : Type} [CommRing K] {d : ℕ} (F : Matrix (Fin d) (Fin d) K) : K :=
  (Fᵀ * F).trace

/-- `Material.I4f` (`material.py`, lines 169-178): the quasi-invariant in
the fiber direction, `inner(C f0, f0)` with `C = Fᵀ F`. -/
def I4f {K : Type} [CommRing K] {d : ℕ} (F : Matrix (Fin d) (Fin d) K)
    (f0 : Fin d → K) : K :=
  ((Fᵀ * F) *ᵥ f0) ⬝ᵥ f0

/-- `Material.I1e` (`material.py`, lines 218-247): the first invariant in
the elastic configuration.  `active_stress` returns the raw invariant; the
active-strain models use the stretch multiplier `mgamma` (`1 - gamma` for
`active_strain`, `1 + gamma` for `active_strain_rossi`) with `d` the
geometric dimension of `F`. -/
def I1e {K : Type} [Field K] {d : ℕ} (model : ActiveModel)
    (F : Matrix (Fin d) (Fin d) K) (f0 : Fin d → K) (gamma : K) : K :=
  match model with
  | ActiveModel.active_stress => I1 F
  | ActiveModel.active_strain =>
      let mgamma := 1 - gamma
      mgamma ^ (4 - d) * I1 F + (1 / mgamma ^ 2 - mgamma ^ (4 - d)) * I4f F f0
  | ActiveModel.active_strain_rossi =>
      let mgamma := 1 + gamma
      mgamma ^ (4 - d) * I1 F + (1 / mgamma ^ 2 - mgamma ^ (4 - d)) * I4f F f0

/-- `Material.I4fe` (`material.py`, lines 251-275): the fiber invariant in
the elastic configuration. -/
def I4fe {K : Type} [Field K] {d : ℕ} (model : ActiveModel)
    (F : Matrix (Fin d) (Fin d) K) (f0 : Fin d → K) (gamma : K) : K :=
  match model with
  | ActiveModel.active_stress => I4f F f0
  | ActiveModel.active_strain =>
      let mgamma := 1 - gamma
      1 / mgamma ^ 2 * I4f F f0
  | ActiveModel.active_strain_rossi =>
      let mgamma := 1 + gamma
      1 / mgamma ^ 2 * I4f F f0

end Material

namespace VolumeTarget

/-- Explicit matrix inverse `(det F)⁻¹ • adjugate F`, the value the external
framework's `inv(F)` denotes for an invertible `F`. -/
def matInv (F : Matrix (Fin 3) (Fin 3) ℚ) : Matrix (Fin 3) (Fin 3) ℚ :=
  (F.det)⁻¹ • F.adjugate

/-- The integrand of `VolumeTarget.assign_simulated`
(`optimization_targets.py`, lines 328-341): with `F = grad(u) + I` and
`J = det F`, the boundary integrand is `(-1/3)*(X + u)·(J*inv(F)ᵀ*N)`. -/
def volIntegrand (X u : Fin 3 → ℚ) (gradu : Matrix (Fin 3) (Fin 3) ℚ)
    (N : Fin 3 → ℚ) : ℚ :=
  let F := gradu + 1
  let J := F.det
  (-1 / 3) * ((X + u) ⬝ᵥ ((J • (matInv F)ᵀ) *ᵥ N))

/-- The volume integrand as stated by the spec: `vol =
−(1/3)·(X+u)·J·(F⁻¹)ᵗ·N` over the relevant boundary, with
`F = grad(u) + I` and `J = det(F)`. -/
def specVolIntegrand (X u : Fin 3 → ℚ) (gradu : Matrix (Fin 3) (Fin 3) ℚ)
    (N : Fin 3 → ℚ) : ℚ :=
  (-1 / 3) * ((X + u) ⬝ᵥ
    (((gradu + 1).det • (matInv (gradu + 1))ᵀ) *ᵥ N))

/-- `VolumeTarget._set_form` (`optimization_targets.py`, lines 343-344):
the misfit form `((target - simulated)/target)²`, evaluated here on the
constant (real-space) target and simulated volume values. -/
def form (target simulated : ℚ) : ℚ :=
  ((target - simulated) / target) ^ 2

/-- `VolumeTarget.assign_simulated` (`optimization_targets.py`,
lines 328-341) including its projection step.  The integrand is projected
onto the target space `FunctionSpace(mesh, "R", 0)` — whose single basis
function is the constant `1` — by
`solve(inner(trial, test)*dmu == inner(vol, test)*dmu)`.  Over a discrete
surface measure given by quadrature weights `wgt` at `m` boundary points,
the mass matrix assembles to `∮ 1 dmu = Σ wgt i` and the load vector to
`∮ vol dmu`, so the stored simulated value is the boundary integral of the
integrand divided by the area of the endocardial boundary. -/
def assign_simulated {m : ℕ} (wgt : Fin m → ℚ) (X u : Fin m → Fin 3 → ℚ)
    (gradu : Fin m → Matrix (Fin 3) (Fin 3) ℚ) (N : Fin m → Fin 3 → ℚ) : ℚ :=
  (∑ i : Fin m, wgt i * volIntegrand (X i) (u i) (gradu i) (N i)) /
    (∑ i : Fin m, wgt i)

/-- The simulated volume as the claim states it: the boundary integral
`−(1/3)∮(X+u)·J·(F⁻¹)ᵗ·N` itself, over the same discrete surface
measure. -/
def specSimulatedVol {m : ℕ} (wgt : Fin m → ℚ) (X u : Fin m → Fin 3 → ℚ)
    (gradu : Fin m → Matrix (Fin 3) (Fin 3) ℚ) (N : Fin m → Fin 3 → ℚ) : ℚ :=
  ∑ i : Fin m, wgt i * specVolIntegrand (X i) (u i) (gradu i) (N i)

end VolumeTarget

namespace RegionalStrainTarget

/-- The weight initialization of `RegionalStrainTarget.set_target_functions`
(`optimization_targets.py`, lines 191-198).  The 17 weight functions are
created zero-initialized by a list comprehension; the four assignment lines
that fill in a diagonal weight are written at the top indentation level,
outside any loop, so under Python 2 semantics they run once with the leaked
comprehension variable `i = 17` and only segment 17 (index 16) receives the
diagonal of its weight row.  Segments 1-16 keep the zero weight. -/
def setWeights (w : Fin 17 → Fin 3 → ℚ) :
    Fin 17 → Matrix (Fin 3) (Fin 3) ℚ :=
  let weights : Fin 17 → Matrix (Fin 3) (Fin 3) ℚ := fun _ => 0
  let i : Fin 17 := 16
  Function.update weights i (Matrix.diagonal (w i))

/-- The weight initialization as the spec states it: every segment
`i ∈ 1..17` receives the diagonal 3×3 tensor built from its own row of the
weight array. -/
def specSetWeights (w : Fin 17 → Fin 3 → ℚ) :
    Fin 17 → Matrix (Fin 3) (Fin 3) ℚ :=
  fun i => Matrix.diagonal (w i)

/-- `RegionalStrainTarget._set_form` (`optimization_targets.py`,
lines 202-206): per-segment misfit `(weightᵢ · (simulatedᵢ - targetᵢ))²`,
the squared length of the weighted component difference. -/
def segForm (weight : Matrix (Fin 3) (Fin 3) ℚ) (simulated target : Fin 3 → ℚ) : ℚ :=
  let v := weight *ᵥ (simulated - target)
  v ⬝ᵥ v

/-- `RegionalStrainTarget.get_value` (`optimization_targets.py`,
lines 208-210): the sum over the 17 per-segment functional values.  Each
functional value is the segment form scaled by the segment's measure, as
produced by `assign_functional`. -/
def getValue (weights : Fin 17 → Matrix (Fin 3) (Fin 3) ℚ)
    (simulated target : Fin 17 → Fin 3 → ℚ) (mu : Fin 17 → ℚ) : ℚ :=
  ∑ i : Fin 17, segForm (weights i) (simulated i) (target i) * mu i

end RegionalStrainTarget

/-- `Regularization` object state (`optimization_targets.py`, lines 354-375).
Python attributes set by `__init__` are modelled as a name-value list so
that attribute lookups that can fail (`AttributeError`) are explicit. -/
structure Regularization where
  space : String
  lmbda : ℚ
  attrs : List (String × ℚ)

namespace RegularizationM

/-- `Regularization.__init__` (`optimization_targets.py`, lines 358-375):
asserts the space tag is one of `CG_1`, `regional`, `R_0`, then stores the
mesh volume under the attribute name `meshvol`. -/
def init (space : String) (lmbda meshvolume : ℚ) : Except String Regularization :=
  if space ∈ ["CG_1", "regional", "R_0"] then
    Except.ok { space := space, lmbda := lmbda,
                attrs := [("meshvol", meshvolume)] }
  else
    Except.error ("Unknown regularization space " ++ space)

/-- Python attribute lookup on a `Regularization` object: a missing
attribute raises `AttributeError`. -/
def getattr (r : Regularization) (name : String) : Except String ℚ :=
  match r.attrs.lookup name with
  | some v => Except.ok v
  | none => Except.error ("AttributeError: " ++ name)

/-- `Regularization.get_form` (`optimization_targets.py`, lines 383-400),
evaluated to the assembled value of the returned form.  `gradSq` stands for
the assembled `∫ |grad m|² dx` of the control and `mvals` for the 17
regional values of the control.  The `CG_1` branch divides `gradSq` by the
`meshvol` attribute; the `regional` branch subtracts the cross-region mean
and divides by the attribute `mesh_vol` — a name `__init__` never sets, so
the lookup fails; the final branch returns the zero form. -/
def get_form (r : Regularization) (gradSq : ℚ) (mvals : Fin 17 → ℚ) :
    Except String ℚ :=
  if r.space = "CG_1" then
    match getattr r "meshvol" with
    | Except.ok v => Except.ok (gradSq / v)
    | Except.error e => Except.error e
  else if r.space = "regional" then
    let m_mean := (∑ i : Fin 17, mvals i) / 17
    match getattr r "mesh_vol" with
    | Except.ok v => Except.ok ((∑ i : Fin 17, (mvals i - m_mean) ^ 2) / v)
    | Except.error e => Except.error e
  else
    Except.ok 0

end RegularizationM

/-- The mutable state of `MyReducedFunctional`
(`setup_optimization.py`, lines 748-872) that `__call__` touches, together
with the process-wide adjoint-recording switch
`parameters["adjoint"]["stop_annotating"]`. -/
structure CallState where
  iter : ℕ
  nr_crashes : ℕ
  func_values_lst : List EReal
  stop_annotating : Bool

/-- The forward-run results bundle; only the extracted functional value is
relevant here.  `⊤ : EReal` stands for `np.inf`. -/
structure ForRes where
  func_value : EReal

namespace MyReducedFunctional

/-- `MyReducedFunctional.__call__` (`setup_optimization.py`, lines 764-872).
The call increments the iteration counter, sets `stop_annotating = False`
(recording on) and runs the forward model, whose outcome is the `forward`
argument: an exception (`Except.error`), or a results bundle with a crash
flag.  An exception from the forward run propagates with the state as
mutated so far — there is no `try/finally` restoring the flag.  On a crash
the functional value is `np.inf` and the crash counter increments; the
scaled value is appended to the log and `stop_annotating = True` is set
before the normal return. -/
noncomputable def call (st : CallState) (scale : ℝ) (forward : Except Unit (ForRes × Bool)) :
    Except Unit EReal × CallState :=
  let st1 : CallState :=
    { st with iter := st.iter + 1, stop_annotating := false }
  match forward with
  | Except.error e => (Except.error e, st1)
  | Except.ok (res, crash) =>
      let func_value : EReal := if crash then ⊤ else res.func_value
      let st2 : CallState :=
        if crash then { st1 with nr_crashes := st1.nr_crashes + 1 } else st1
      let st3 : CallState :=
        { st2 with
          func_values_lst := st2.func_values_lst ++ [(scale : EReal) * func_value],
          stop_annotating := true }
      (Except.ok ((scale : EReal) * func_value), st3)

end MyReducedFunctional

noncomputable section

/-- `subplus` (`material.py`, lines 22-23): `x` when `x ≥ 0`, else `0`. -/
def subplus (x : ℝ) : ℝ :=
  if 0 ≤ x then x else 0

/-- `heaviside` (`material.py`, lines 25-26): `1` when `x ≥ 0`, else `0`. -/
def heaviside (x : ℝ) : ℝ :=
  if 0 ≤ x then 1 else 0

namespace HolzapfelOgden

/-- `HolzapfelOgden.W_1` (`material.py`, lines 309-331): the isotropic
exponential term and its first two derivatives in `I_1`, selected by
`diff`.  A `diff` outside `{0, 1, 2}` falls off the end of the Python
function and is modelled as `0`; no claim exercises that range. -/
def W_1 (a b I_1 : ℝ) (diff : ℕ) : ℝ :=
  if diff = 0 then a / (2 * b) * (Real.exp (b * (I_1 - 3)) - 1)
  else if diff = 1 then a / 2 * Real.exp (b * (I_1 - 3))
  else if diff = 2 then a * b / 2 * Real.exp (b * (I_1 - 3))
  else 0

/-- `HolzapfelOgden.W_4` (`material.py`, lines 333-361): the anisotropic
fiber term, gated by `heaviside`/`subplus` at `I_4 = 1`, and its first two
derivatives in `I_4`, selected by `diff`.  The source short-circuits to `0`
when `I_4` is the literal zero expression; a `diff` outside `{0, 1, 2}`
falls off the end of the Python function and is modelled as `0`. -/
def W_4 (a b I_4 : ℝ) (diff : ℕ) : ℝ :=
  if I_4 = 0 then 0
  else if diff = 0 then
    a / (2 * b) * heaviside (I_4 - 1) * (Real.exp (b * (I_4 - 1) ^ 2) - 1)
  else if diff = 1 then
    a * subplus (I_4 - 1) * Real.exp (b * (I_4 - 1) ^ 2)
  else if diff = 2 then
    a * heaviside (I_4 - 1) * (1 + 2 * b * (I_4 - 1) ^ 2) *
      Real.exp (b * (I_4 - 1) ^ 2)
  else 0

end HolzapfelOgden

namespace Material

/-- `Material.CauchyStress` (`material.py`, lines 82-144).  `w1fun` and
`w4fun` stand for the subclass methods `W_1(·, diff=1)` and `W_4(·, diff=1)`.
The code computes `B = F Fᵀ`, the normalized push-forward fiber
`f = F f0 / sqrt(f·f)`, the invariants `I1`, `I4f`, and
`wactive = Wactive(gamma, diff=1)`, returning
`2 w1 B + 2 w4f (f⊗f) + 2 wactive (f⊗f) - p I`. -/
def CauchyStress {n : ℕ} (model : ActiveModel) (tref : ℝ)
    (w1fun w4fun : ℝ → ℝ) (gamma : ℝ) (f0 : Fin n → ℝ)
    (F : Matrix (Fin n) (Fin n) ℝ) (p : ℝ) : Matrix (Fin n) (Fin n) ℝ :=
  let B := F * Fᵀ
  let fbar := F *ᵥ f0
  let f := (Real.sqrt (fbar ⬝ᵥ fbar))⁻¹ • fbar
  let ff := vecMulVec f f
  let w1 := w1fun (I1 F)
  let w4f := w4fun (I4f F f0)
  let wactive := (Wactive model tref gamma 0 1).getD 0
  (2 * w1) • B + (2 * w4f) • ff + (2 * wactive) • ff -
    p • (1 : Matrix (Fin n) (Fin n) ℝ)

/-- The Cauchy stress as the spec states it:
`σ = 2 w1 B + 2 w4f (f⊗f) + 2 wactive (f⊗f) − p I` with
`wactive = T_ref * gamma`, the analytic derivative of the activation energy
`T_ref * gamma * I4f` with respect to `I4f`. -/
def specCauchyStress {n : ℕ} (tref : ℝ) (w1fun w4fun : ℝ → ℝ) (gamma : ℝ)
    (f0 : Fin n → ℝ) (F : Matrix (Fin n) (Fin n) ℝ) (p : ℝ) :
    Matrix (Fin n) (Fin n) ℝ :=
  let B := F * Fᵀ
  let fbar := F *ᵥ f0
  let f := (Real.sqrt (fbar ⬝ᵥ fbar))⁻¹ • fbar
  let ff := vecMulVec f f
  let w1 := w1fun (I1 F)
  let w4f := w4fun (I4f F f0)
  let wactive := tref * gamma
  (2 * w1) • B + (2 * w4f) • ff + (2 * wactive) • ff -
    p • (1 : Matrix (Fin n) (Fin n) ℝ)

end Material

end

/-- Claim C10: a `Material` constructed with `T_ref = None` defaults
`T_ref` to `300.0` for the `active_stress` model and to `1.0` for the
`active_strain` and `active_strain_rossi` models; for an `active_stress`
material with the defaulted `T_ref`, the activation energy evaluates as
`Wactive(gamma, I4f, diff=0) = 300 * gamma * I4f`. -/
theorem tref_default_and_activation :
    Material.resolveTref ActiveModel.active_stress none = 300 ∧
    Material.resolveTref ActiveModel.active_strain none = 1 ∧
    Material.resolveTref ActiveModel.active_strain_rossi none = 1 ∧
    ∀ gamma i4f : ℚ,
      Material.Wactive ActiveModel.active_stress
          (Material.resolveTref ActiveModel.active_stress none) gamma i4f 0 =
        some (300 * gamma * i4f) :=
  ⟨rfl, rfl, rfl, fun _ _ => rfl⟩

/-- Claim C7: constructing a `Material` succeeds exactly when the
active-model tag is in the closed set `{active_stress, active_strain,
active_strain_rossi}` and fails with a configuration error otherwise;
constructing a `Regularization` succeeds exactly when the space tag is in
`{CG_1, regional, R_0}` and fails with a configuration error otherwise. -/
theorem config_validation :
    (∀ tag : String,
      (∃ u, Material.initCheck tag = Except.ok u) ↔ tag ∈ activeModels) ∧
    (∀ tag : String,
      (∃ e, Material.initCheck tag = Except.error e) ↔ tag ∉ activeModels) ∧
    (∀ (space : String) (lmbda meshvolume : ℚ),
      (∃ r, RegularizationM.init space lmbda meshvolume = Except.ok r) ↔
        space ∈ ["CG_1", "regional", "R_0"]) ∧
    (∀ (space : String) (lmbda meshvolume : ℚ),
      (∃ e, RegularizationM.init space lmbda meshvolume = Except.error e) ↔
        space ∉ ["CG_1", "regional", "R_0"]) := by
  refine ⟨fun tag => ?_, fun tag => ?_, fun space lmbda mv => ?_,
    fun space lmbda mv => ?_⟩ <;>
    first
      | (by_cases h : tag ∈ activeModels <;>
          simp [Material.initCheck, h])
      | (by_cases h : space ∈ ["CG_1", "regional", "R_0"] <;>
          simp [RegularizationM.init, h])

/-- Claim C8: when the forward run reports `crashed = True`,
`MyReducedFunctional.__call__` substitutes `+infinity` for the functional
value, increments `nr_crashes` by exactly one and returns
`scale * +infinity` normally; when `crashed = False` it returns
`scale * func_value` and leaves `nr_crashes` unchanged. -/
theorem crash_behavior (st : CallState) (scale : ℝ) (res : ForRes) :
    (MyReducedFunctional.call st scale (Except.ok (res, true))).1 =
        Except.ok ((scale : EReal) * ⊤) ∧
    ((MyReducedFunctional.call st scale (Except.ok (res, true))).2).nr_crashes =
        st.nr_crashes + 1 ∧
    ((MyReducedFunctional.call st scale (Except.ok (res, true))).2).func_values_lst =
        st.func_values_lst ++ [(scale : EReal) * ⊤] ∧
    (MyReducedFunctional.call st scale (Except.ok (res, false))).1 =
        Except.ok ((scale : EReal) * res.func_value) ∧
    ((MyReducedFunctional.call st scale (Except.ok (res, false))).2).nr_crashes =
        st.nr_crashes :=
  ⟨rfl, rfl, rfl, rfl, rfl⟩

/-- Claim C9, counterexample: when the forward run raises, the
adjoint-recording flag is NOT restored — `__call__` has no `try/finally`,
so the exceptional exit leaves `stop_annotating = False`, refuting the
claim that every exit path restores it to `True`. -/
theorem adjoint_flag_exception_leak :
    ((MyReducedFunctional.call ⟨0, 0, [], true⟩ 1 (Except.error ())).2).stop_annotating
      = false :=
  rfl

/-- Claim C9, amended: on every non-exceptional exit of
`MyReducedFunctional.__call__` — the normal return and the
crashed-forward-solve return — the adjoint-recording flag is restored to
off (`stop_annotating = True`) before control returns; an exceptional exit
(the forward run raising) leaves the flag on. -/
theorem adjoint_flag_restored_nonexceptional (st : CallState) (scale : ℝ)
    (res : ForRes) (crash : Bool) :
    ((MyReducedFunctional.call st scale (Except.ok (res, crash))).2).stop_annotating
      = true := by
  cases crash <;> rfl

/-- Claim C3: with `mgamma = 1 - gamma` for `active_strain` and
`mgamma = 1 + gamma` for `active_strain_rossi`, the elastic invariants are
`I1e = mgamma^(4-d) * I1 + (1/mgamma² - mgamma^(4-d)) * I4f` and
`I4fe = I4f / mgamma²` for geometric dimension `d ∈ {2, 3}`, while
`active_stress` mode returns the raw invariants unchanged. -/
theorem elastic_invariants (d : ℕ) (_hd : d = 2 ∨ d = 3)
    (F : Matrix (Fin d) (Fin d) ℚ) (f0 : Fin d → ℚ) (gamma : ℚ) :
    Material.I1e ActiveModel.active_stress F f0 gamma = Material.I1 F ∧
    Material.I4fe ActiveModel.active_stress F f0 gamma = Material.I4f F f0 ∧
    Material.I1e ActiveModel.active_strain F f0 gamma =
      (1 - gamma) ^ (4 - d) * Material.I1 F +
        (1 / (1 - gamma) ^ 2 - (1 - gamma) ^ (4 - d)) * Material.I4f F f0 ∧
    Material.I1e ActiveModel.active_strain_rossi F f0 gamma =
      (1 + gamma) ^ (4 - d) * Material.I1 F +
        (1 / (1 + gamma) ^ 2 - (1 + gamma) ^ (4 - d)) * Material.I4f F f0 ∧
    Material.I4fe ActiveModel.active_strain F f0 gamma =
      Material.I4f F f0 / (1 - gamma) ^ 2 ∧
    Material.I4fe ActiveModel.active_strain_rossi F f0 gamma =
      Material.I4f F f0 / (1 + gamma) ^ 2 := by
  refine ⟨rfl, rfl, rfl, rfl, ?_, ?_⟩ <;>
    · simp only [Material.I4fe]
      ring

/-- Witness for C3 at dimension `d = 2`, `F = I`, `f0 = (1,0)`,
`gamma = 1/2`. -/
theorem elastic_invariants_witness :
    ((2 : ℕ) = 2 ∨ (2 : ℕ) = 3) ∧
    (Material.I1e ActiveModel.active_stress (1 : Matrix (Fin 2) (Fin 2) ℚ)
        ![1, 0] (1 / 2) = Material.I1 (1 : Matrix (Fin 2) (Fin 2) ℚ) ∧
     Material.I4fe ActiveModel.active_stress (1 : Matrix (Fin 2) (Fin 2) ℚ)
        ![1, 0] (1 / 2) = Material.I4f (1 : Matrix (Fin 2) (Fin 2) ℚ) ![1, 0] ∧
     Material.I1e ActiveModel.active_strain (1 : Matrix (Fin 2) (Fin 2) ℚ)
        ![1, 0] (1 / 2) =
       (1 - 1 / 2) ^ (4 - 2) * Material.I1 (1 : Matrix (Fin 2) (Fin 2) ℚ) +
         (1 / (1 - 1 / 2) ^ 2 - (1 - 1 / 2) ^ (4 - 2)) * Material.I4f (1 : Matrix (Fin 2) (Fin 2) ℚ) ![1, 0] ∧
     Material.I1e ActiveModel.active_strain_rossi (1 : Matrix (Fin 2) (Fin 2) ℚ)
        ![1, 0] (1 / 2) =
       (1 + 1 / 2) ^ (4 - 2) * Material.I1 (1 : Matrix (Fin 2) (Fin 2) ℚ) +
         (1 / (1 + 1 / 2) ^ 2 - (1 + 1 / 2) ^ (4 - 2)) * Material.I4f (1 : Matrix (Fin 2) (Fin 2) ℚ) ![1, 0] ∧
     Material.I4fe ActiveModel.active_strain (1 : Matrix (Fin 2) (Fin 2) ℚ)
        ![1, 0] (1 / 2) = Material.I4f (1 : Matrix (Fin 2) (Fin 2) ℚ) ![1, 0] / (1 - 1 / 2) ^ 2 ∧
     Material.I4fe ActiveModel.active_strain_rossi (1 : Matrix (Fin 2) (Fin 2) ℚ)
        ![1, 0] (1 / 2) = Material.I4f (1 : Matrix (Fin 2) (Fin 2) ℚ) ![1, 0] / (1 + 1 / 2) ^ 2) :=
  ⟨Or.inl rfl, elastic_invariants 2 (Or.inl rfl) 1 ![1, 0] (1 / 2)⟩

/-- Claim C4, code evaluation at the failing input: `assign_simulated`
projects the divergence-theorem integrand onto the constant space with an
un-normalized surface mass matrix, so it stores the boundary integral
divided by the endocardial area rather than the integral the claim states.
On a discrete boundary of two unit-weight points (area `2`) with
`X = (-3,0,0)`, `N = (1,0,0)` and `u = 0`, the integrand is `1` at both
points: the code stores `1` while the claimed volume integral is `2`.  The
integrand itself matches the spec formula, and the misfit form
`((target - simulated)/target)²` is `0` at `target = simulated = 120` and
`1/100` at `target = 100`, `simulated = 110`, as claimed. -/
theorem volume_simulated_eval :
    VolumeTarget.assign_simulated ![1, 1] (fun _ => ![-3, 0, 0])
        (fun _ => 0) (fun _ => 0) (fun _ => ![1, 0, 0]) = 1 ∧
    VolumeTarget.specSimulatedVol ![1, 1] (fun _ => ![-3, 0, 0])
        (fun _ => 0) (fun _ => 0) (fun _ => ![1, 0, 0]) = 2 ∧
    (1 : ℚ) ≠ 2 ∧
    (∀ (X u : Fin 3 → ℚ) (gradu : Matrix (Fin 3) (Fin 3) ℚ) (N : Fin 3 → ℚ),
      VolumeTarget.volIntegrand X u gradu N =
        VolumeTarget.specVolIntegrand X u gradu N) ∧
    VolumeTarget.form 120 120 = 0 ∧
    VolumeTarget.form 100 110 = 1 / 100 := by
  have hint : VolumeTarget.volIntegrand ![-3, 0, 0] 0 0 ![1, 0, 0] = 1 := by
    simp [VolumeTarget.volIntegrand, VolumeTarget.matInv, Matrix.det_one,
      Matrix.adjugate_one, Matrix.transpose_one, Matrix.one_mulVec,
      dotProduct, Fin.sum_univ_three]
  have hint2 : VolumeTarget.specVolIntegrand ![-3, 0, 0] 0 0 ![1, 0, 0] = 1 :=
    hint
  refine ⟨?_, ?_, by norm_num, fun X u gradu N => rfl,
    by norm_num [VolumeTarget.form], by norm_num [VolumeTarget.form]⟩
  · rw [VolumeTarget.assign_simulated]
    rw [Fin.sum_univ_two, Fin.sum_univ_two]
    simp only [hint]
    norm_num
  · rw [VolumeTarget.specSimulatedVol, Fin.sum_univ_two]
    simp only [hint2]
    norm_num

/-- Claim C5, code evaluation at the failing input: with the default
all-ones 17×3 weight array, `set_target_functions` leaves segment 1's
weight tensor zero (the diagonal-assignment lines sit outside the loop,
so under Python 2 only the leaked index `i = 17` is assigned), diverging
from the per-segment diagonal weights the claim states. -/
theorem regional_weights_eval :
    RegionalStrainTarget.setWeights (fun _ _ => 1) 0 = 0 ∧
    RegionalStrainTarget.setWeights (fun _ _ => 1) 16 =
      Matrix.diagonal (fun _ => 1) ∧
    RegionalStrainTarget.setWeights (fun _ _ => 1) 0 ≠
      RegionalStrainTarget.specSetWeights (fun _ _ => 1) 0 := by
  refine ⟨?_, ?_, ?_⟩
  · simp [RegionalStrainTarget.setWeights, Function.update]
  · simp [RegionalStrainTarget.setWeights]
  · intro h
    have h00 := congrFun (congrFun h 0) 0
    simp [RegionalStrainTarget.setWeights, RegionalStrainTarget.specSetWeights,
      Function.update, Matrix.diagonal] at h00

/-- Part of claim C5 that the code does satisfy: whatever the weight
tensors are, the total regional-strain functional is exactly `0` whenever
every simulated segment equals its target segment. -/
theorem regional_zero_misfit (weights : Fin 17 → Matrix (Fin 3) (Fin 3) ℚ)
    (target : Fin 17 → Fin 3 → ℚ) (mu : Fin 17 → ℚ) :
    RegionalStrainTarget.getValue weights target target mu = 0 := by
  simp [RegionalStrainTarget.getValue, RegionalStrainTarget.segForm,
    sub_self, Matrix.mulVec_zero]

/-- Claim C6, code evaluation at the failing input: `get_form` on a
`regional`-space regularization reads the attribute `mesh_vol`, which
`__init__` never sets (it sets `meshvol`), so the branch raises
`AttributeError` instead of returning the deviation-from-mean penalty;
the `CG_1` branch returns `∫|∇m|²/meshvol` and the `R_0` branch returns
the zero form for every control. -/
theorem regularization_regional_attr_eval :
    RegularizationM.init "regional" 0 1 =
      Except.ok { space := "regional", lmbda := 0,
                  attrs := [("meshvol", 1)] } ∧
    RegularizationM.get_form
      { space := "regional", lmbda := 0, attrs := [("meshvol", 1)] }
      5 (fun _ => 3) = Except.error "AttributeError: mesh_vol" ∧
    (∀ (lmbda mv gradSq : ℚ) (mvals : Fin 17 → ℚ),
      RegularizationM.get_form
        { space := "CG_1", lmbda := lmbda, attrs := [("meshvol", mv)] }
        gradSq mvals = Except.ok (gradSq / mv)) ∧
    (∀ (lmbda mv gradSq : ℚ) (mvals : Fin 17 → ℚ),
      RegularizationM.get_form
        { space := "R_0", lmbda := lmbda, attrs := [("meshvol", mv)] }
        gradSq mvals = Except.ok 0) :=
  ⟨rfl, rfl, fun _ _ _ _ => rfl, fun _ _ _ _ => rfl⟩

/-- Claim C2, code evaluation at the failing input: for an `active_stress`
HolzapfelOgden material with the default `T_ref = 300`, `gamma = 1`,
`a = 2`, `b = a_f = b_f = 1`, fiber `f0 = e₁`, `F = I` and `p = 0`, the
code's Cauchy stress has entry `(0,0)` equal to `4` (it uses
`wactive = Wactive(gamma, diff=1) = gamma`), while the claim's formula with
`wactive = T_ref*gamma` gives `602`. -/
theorem cauchy_stress_wactive_eval :
    Material.CauchyStress (n := 3) ActiveModel.active_stress 300
        (fun i1 => HolzapfelOgden.W_1 2 1 i1 1)
        (fun i4 => HolzapfelOgden.W_4 1 1 i4 1)
        1 ![1, 0, 0] 1 0 0 0 = 4 ∧
    Material.specCauchyStress (n := 3) 300
        (fun i1 => HolzapfelOgden.W_1 2 1 i1 1)
        (fun i4 => HolzapfelOgden.W_4 1 1 i4 1)
        1 ![1, 0, 0] 1 0 0 0 = 602 ∧
    (4 : ℝ) ≠ 602 := by
  have hI1 : Material.I1 (1 : Matrix (Fin 3) (Fin 3) ℝ) = 3 := by
    simp [Material.I1, Matrix.trace_one]
  have hI4f : Material.I4f (1 : Matrix (Fin 3) (Fin 3) ℝ) ![1, 0, 0] = 1 := by
    simp [Material.I4f, Matrix.one_mulVec, dotProduct, Fin.sum_univ_three]
  have hW1 : HolzapfelOgden.W_1 2 1 3 1 = 1 := by
    norm_num [HolzapfelOgden.W_1, Real.exp_zero]
  have hW4 : HolzapfelOgden.W_4 1 1 1 1 = 0 := by
    norm_num [HolzapfelOgden.W_4, subplus]
  have hfbar : (1 : Matrix (Fin 3) (Fin 3) ℝ) *ᵥ ![1, 0, 0] = ![1, 0, 0] :=
    Matrix.one_mulVec _
  have hdot : (![1, 0, 0] : Fin 3 → ℝ) ⬝ᵥ ![1, 0, 0] = 1 := by
    simp [dotProduct, Fin.sum_univ_three]
  refine ⟨?_, ?_, by norm_num⟩ <;>
  · simp only [Material.CauchyStress, Material.specCauchyStress, hI1, hI4f,
      hW1, hW4, hfbar, hdot, Real.sqrt_one, inv_one, one_smul,
      Matrix.mul_one, Matrix.transpose_one, Material.Wactive]
    norm_num

namespace HolzapfelOgden

lemma W4_val_zero (a b : ℝ) {x : ℝ} (hx : x ≤ 1) : W_4 a b x 0 = 0 := by
  rcases eq_or_ne x 0 with h0 | h0
  · simp [W_4, h0]
  · rcases lt_or_eq_of_le hx with h | h
    · simp [W_4, h0, heaviside, sub_nonneg, h.not_le]
    · subst h
      norm_num [W_4, heaviside, Real.exp_zero]

lemma W4_val_gt (a b : ℝ) {x : ℝ} (hx : 1 < x) :
    W_4 a b x 0 = a / (2 * b) * (Real.exp (b * (x - 1) ^ 2) - 1) := by
  have h0 : x ≠ 0 := by intro h; rw [h] at hx; linarith
  have hh : heaviside (x - 1) = 1 := by
    unfold heaviside
    rw [if_pos (by linarith)]
  simp [W_4, h0, hh]

lemma W4_d1_zero (a b : ℝ) {x : ℝ} (hx : x ≤ 1) : W_4 a b x 1 = 0 := by
  have hs : subplus (x - 1) = 0 := by
    unfold subplus
    by_cases h : 0 ≤ x - 1
    · rw [if_pos h]; linarith
    · rw [if_neg h]
  rcases eq_or_ne x 0 with h0 | h0
  · simp [W_4, h0]
  · simp [W_4, h0, hs]

lemma W4_d1_gt (a b : ℝ) {x : ℝ} (hx : 1 < x) :
    W_4 a b x 1 = a * (x - 1) * Real.exp (b * (x - 1) ^ 2) := by
  have h0 : x ≠ 0 := by intro h; rw [h] at hx; linarith
  have hs : subplus (x - 1) = x - 1 := by
    unfold subplus
    rw [if_pos (by linarith)]
  simp [W_4, h0, hs]

lemma W4_d2_lt (a b : ℝ) {x : ℝ} (hx : x < 1) : W_4 a b x 2 = 0 := by
  rcases eq_or_ne x 0 with h0 | h0
  · simp [W_4, h0]
  · simp [W_4, h0, heaviside, sub_nonneg, hx.not_le]

lemma W4_d2_gt (a b : ℝ) {x : ℝ} (hx : 1 < x) :
    W_4 a b x 2 =
      a * (1 + 2 * b * (x - 1) ^ 2) * Real.exp (b * (x - 1) ^ 2) := by
  have h0 : x ≠ 0 := by intro h; rw [h] at hx; linarith
  have hh : heaviside (x - 1) = 1 := by
    unfold heaviside
    rw [if_pos (by linarith)]
  simp [W_4, h0, hh]

lemma W4_d2_one (a b : ℝ) : W_4 a b 1 2 = a := by
  norm_num [W_4, heaviside, Real.exp_zero]

lemma hasDerivAt_bq (b x : ℝ) :
    HasDerivAt (fun y : ℝ => b * (y - 1) ^ 2) (b * (2 * (x - 1))) x := by
  have h1 : HasDerivAt (fun y : ℝ => y - 1) 1 x := (hasDerivAt_id x).sub_const 1
  have h2 := (h1.pow 2).const_mul b
  convert h2 using 1
  ring

lemma W4_branch_hasDerivAt (a b x : ℝ) :
    HasDerivAt (fun y : ℝ => a / (2 * b) * (Real.exp (b * (y - 1) ^ 2) - 1))
      (a / (2 * b) * (Real.exp (b * (x - 1) ^ 2) * (b * (2 * (x - 1))))) x := by
  exact (((hasDerivAt_bq b x).exp).sub_const 1).const_mul (a / (2 * b))

lemma W4_hasDerivAt (a b : ℝ) (ha : 0 ≤ a) (hb : 0 < b) (x : ℝ) :
    HasDerivAt (fun y => W_4 a b y 0) (W_4 a b x 1) x := by
  rcases lt_trichotomy x 1 with hx | hx | hx
  · have hev : (fun y => W_4 a b y 0) =ᶠ[nhds x] (fun _ => (0 : ℝ)) :=
      Filter.eventuallyEq_of_mem (Iio_mem_nhds hx)
        (fun y hy => W4_val_zero a b (le_of_lt hy))
    rw [W4_d1_zero a b hx.le]
    exact (hasDerivAt_const x 0).congr_of_eventuallyEq hev
  · subst hx
    rw [W4_d1_zero a b le_rfl]
    rw [hasDerivAt_iff_tendsto_slope]
    have hf1 : W_4 a b 1 0 = 0 := W4_val_zero a b le_rfl
    have hCpos : 0 ≤ a / (2 * b) * b * Real.exp b := by positivity
    have hg : Filter.Tendsto (fun y : ℝ => a / (2 * b) * b * Real.exp b * |y - 1|)
        (nhdsWithin (1 : ℝ) {(1 : ℝ)}ᶜ) (nhds 0) := by
      have hc : Continuous fun y : ℝ => a / (2 * b) * b * Real.exp b * |y - 1| :=
        continuous_const.mul (continuous_id.sub continuous_const).abs
      refine Filter.Tendsto.mono_left ?_ nhdsWithin_le_nhds
      simpa using hc.tendsto 1
    have hbound : ∀ᶠ y in nhdsWithin (1 : ℝ) {(1 : ℝ)}ᶜ,
        ‖slope (fun z => W_4 a b z 0) 1 y‖ ≤
          a / (2 * b) * b * Real.exp b * |y - 1| := by
      have hmem : Set.Ioo (0 : ℝ) 2 ∈ nhdsWithin (1 : ℝ) {(1 : ℝ)}ᶜ :=
        mem_nhdsWithin_of_mem_nhds (Ioo_mem_nhds (by norm_num) (by norm_num))
      filter_upwards [hmem] with y hy
      rw [slope_def_field, hf1, sub_zero]
      rcases le_or_lt y 1 with hy2 | hy2
      · rw [W4_val_zero a b hy2]
        simp only [zero_div, norm_zero]
        positivity
      · rw [W4_val_gt a b hy2]
        have hy1pos : 0 < y - 1 := by linarith
        have htpos : 0 ≤ b * (y - 1) ^ 2 := by positivity
        have htle : b * (y - 1) ^ 2 ≤ b := by
          have h2 : (y - 1) ^ 2 ≤ 1 := by nlinarith [hy.2]
          nlinarith
        have hexp1 : 1 ≤ Real.exp (b * (y - 1) ^ 2) := Real.one_le_exp htpos
        have hexp : Real.exp (b * (y - 1) ^ 2) - 1 ≤
            b * (y - 1) ^ 2 * Real.exp b := by
          have h1 : 1 - b * (y - 1) ^ 2 ≤ Real.exp (-(b * (y - 1) ^ 2)) := by
            have := Real.add_one_le_exp (-(b * (y - 1) ^ 2))
            linarith
          have h2 : (1 - b * (y - 1) ^ 2) * Real.exp (b * (y - 1) ^ 2) ≤ 1 := by
            calc (1 - b * (y - 1) ^ 2) * Real.exp (b * (y - 1) ^ 2) ≤
                Real.exp (-(b * (y - 1) ^ 2)) * Real.exp (b * (y - 1) ^ 2) :=
                  mul_le_mul_of_nonneg_right h1 (Real.exp_pos _).le
              _ = 1 := by rw [← Real.exp_add]; simp
          have h3 : Real.exp (b * (y - 1) ^ 2) - 1 ≤
              b * (y - 1) ^ 2 * Real.exp (b * (y - 1) ^ 2) := by nlinarith
          have h4 : Real.exp (b * (y - 1) ^ 2) ≤ Real.exp b :=
            Real.exp_le_exp.mpr htle
          nlinarith
        have hnum : 0 ≤ a / (2 * b) * (Real.exp (b * (y - 1) ^ 2) - 1) := by
          have : 0 ≤ Real.exp (b * (y - 1) ^ 2) - 1 := by linarith
          positivity
        rw [Real.norm_eq_abs,
          abs_of_nonneg (div_nonneg hnum hy1pos.le),
          abs_of_pos hy1pos, div_le_iff₀ hy1pos]
        calc a / (2 * b) * (Real.exp (b * (y - 1) ^ 2) - 1) ≤
            a / (2 * b) * (b * (y - 1) ^ 2 * Real.exp b) :=
              mul_le_mul_of_nonneg_left hexp (by positivity)
          _ = a / (2 * b) * b * Real.exp b * (y - 1) * (y - 1) := by ring
    exact squeeze_zero_norm' hbound hg
  · have hev : (fun y => W_4 a b y 0) =ᶠ[nhds x]
        (fun y => a / (2 * b) * (Real.exp (b * (y - 1) ^ 2) - 1)) :=
      Filter.eventuallyEq_of_mem (Ioi_mem_nhds hx)
        (fun y hy => W4_val_gt a b hy)
    have h' := (W4_branch_hasDerivAt a b x).congr_of_eventuallyEq hev
    rw [W4_d1_gt a b hx]
    convert h' using 1
    field_simp
    ring

lemma W4_d1_hasDerivAt (a b : ℝ) {x : ℝ} (hx : x ≠ 1) :
    HasDerivAt (fun y => W_4 a b y 1) (W_4 a b x 2) x := by
  rcases hx.lt_or_lt with hx | hx
  · have hev : (fun y => W_4 a b y 1) =ᶠ[nhds x] (fun _ => (0 : ℝ)) :=
      Filter.eventuallyEq_of_mem (Iio_mem_nhds hx)
        (fun y hy => W4_d1_zero a b (le_of_lt hy))
    rw [W4_d2_lt a b hx]
    exact (hasDerivAt_const x 0).congr_of_eventuallyEq hev
  · have hev : (fun y => W_4 a b y 1) =ᶠ[nhds x]
        (fun y => a * ((y - 1) * Real.exp (b * (y - 1) ^ 2))) :=
      Filter.eventuallyEq_of_mem (Ioi_mem_nhds hx)
        (fun y hy => by rw [W4_d1_gt a b hy]; ring)
    have h1 : HasDerivAt (fun y : ℝ => y - 1) 1 x := (hasDerivAt_id x).sub_const 1
    have hprod := (h1.mul ((hasDerivAt_bq b x).exp)).const_mul a
    have h' := hprod.congr_of_eventuallyEq hev
    rw [W4_d2_gt a b hx]
    convert h' using 1
    ring

lemma W4_strictMonoOn (a b : ℝ) (ha : 0 < a) (hb : 0 < b) :
    StrictMonoOn (fun x => W_4 a b x 0) (Set.Ioi 1) := by
  intro x hx y hy hxy
  have hx1 : 1 < x := Set.mem_Ioi.mp hx
  have hy1 : 1 < y := Set.mem_Ioi.mp hy
  simp only
  rw [W4_val_gt a b hx1, W4_val_gt a b hy1]
  have h1 : b * (x - 1) ^ 2 < b * (y - 1) ^ 2 := by
    have hprod : 0 < (y - x) * (x + y - 2) :=
      mul_pos (sub_pos.mpr hxy) (by linarith)
    nlinarith
  have h2 : Real.exp (b * (x - 1) ^ 2) < Real.exp (b * (y - 1) ^ 2) :=
    Real.exp_lt_exp.mpr h1
  have hc : 0 < a / (2 * b) := by positivity
  exact mul_lt_mul_of_pos_left (sub_lt_sub_right h2 1) hc

lemma W4_d2_discont (a b : ℝ) (ha : 0 < a) :
    ¬ ContinuousAt (fun x => W_4 a b x 2) 1 := by
  intro h
  have h1 : Filter.Tendsto (fun x => W_4 a b x 2) (nhdsWithin 1 (Set.Iio 1))
      (nhds (W_4 a b 1 2)) :=
    h.tendsto.mono_left nhdsWithin_le_nhds
  have h2 : (fun x => W_4 a b x 2) =ᶠ[nhdsWithin (1 : ℝ) (Set.Iio 1)]
      (fun _ => (0 : ℝ)) := by
    filter_upwards [self_mem_nhdsWithin] with y hy
    exact W4_d2_lt a b hy
  have h3 := Filter.Tendsto.congr' h2 h1
  have h4 : W_4 a b 1 2 = 0 := tendsto_nhds_unique h3 tendsto_const_nhds
  rw [W4_d2_one] at h4
  linarith

lemma W4_d2_contAt (a b : ℝ) {x : ℝ} (hx : x ≠ 1) :
    ContinuousAt (fun y => W_4 a b y 2) x := by
  rcases hx.lt_or_lt with hx | hx
  · have hev : (fun y => W_4 a b y 2) =ᶠ[nhds x] (fun _ => (0 : ℝ)) :=
      Filter.eventuallyEq_of_mem (Iio_mem_nhds hx)
        (fun y hy => W4_d2_lt a b hy)
    exact continuousAt_const.congr hev.symm
  · have hev : (fun y => W_4 a b y 2) =ᶠ[nhds x]
        (fun y => a * (1 + 2 * b * (y - 1) ^ 2) * Real.exp (b * (y - 1) ^ 2)) :=
      Filter.eventuallyEq_of_mem (Ioi_mem_nhds hx)
        (fun y hy => W4_d2_gt a b hy)
    have hc : Continuous fun y : ℝ =>
        a * (1 + 2 * b * (y - 1) ^ 2) * Real.exp (b * (y - 1) ^ 2) := by
      apply Continuous.mul
      · exact continuous_const.mul (continuous_const.add
          (continuous_const.mul ((continuous_id.sub continuous_const).pow 2)))
      · exact Real.continuous_exp.comp
          (continuous_const.mul ((continuous_id.sub continuous_const).pow 2))
    exact hc.continuousAt.congr hev.symm

end HolzapfelOgden

/-- Claim C1: for `a_f, b_f > 0` the HolzapfelOgden anisotropic term
`W_4(I4, diff=0)` is `0` for every `I4 ≤ 1` and
`a_f/(2 b_f) (exp(b_f (I4-1)²) - 1)` for every `I4 > 1`, strictly
increasing on `I4 > 1` and continuous at `I4 = 1`; the `diff=1` and
`diff=2` branches are the analytic first and second derivatives, zero
below the threshold, and the derivative discontinuity sits exactly at
`I4 = 1`: the second-derivative branch is discontinuous there (jumping
from `0` to `a_f`) and continuous everywhere else — no smoothing. -/
theorem holzapfel_W4_gating (a b : ℝ) (ha : 0 < a) (hb : 0 < b) :
    (∀ x : ℝ, x ≤ 1 → HolzapfelOgden.W_4 a b x 0 = 0) ∧
    (∀ x : ℝ, 1 < x → HolzapfelOgden.W_4 a b x 0 =
        a / (2 * b) * (Real.exp (b * (x - 1) ^ 2) - 1)) ∧
    StrictMonoOn (fun x => HolzapfelOgden.W_4 a b x 0) (Set.Ioi 1) ∧
    ContinuousAt (fun x => HolzapfelOgden.W_4 a b x 0) 1 ∧
    (∀ x : ℝ, HasDerivAt (fun y => HolzapfelOgden.W_4 a b y 0)
        (HolzapfelOgden.W_4 a b x 1) x) ∧
    (∀ x : ℝ, x ≤ 1 → HolzapfelOgden.W_4 a b x 1 = 0) ∧
    (∀ x : ℝ, x ≠ 1 → HasDerivAt (fun y => HolzapfelOgden.W_4 a b y 1)
        (HolzapfelOgden.W_4 a b x 2) x) ∧
    (∀ x : ℝ, x < 1 → HolzapfelOgden.W_4 a b x 2 = 0) ∧
    ¬ ContinuousAt (fun x => HolzapfelOgden.W_4 a b x 2) 1 ∧
    (∀ x : ℝ, x ≠ 1 → ContinuousAt (fun y => HolzapfelOgden.W_4 a b y 2) x) := by
  refine ⟨fun x hx => HolzapfelOgden.W4_val_zero a b hx,
    fun x hx => HolzapfelOgden.W4_val_gt a b hx,
    HolzapfelOgden.W4_strictMonoOn a b ha hb,
    (HolzapfelOgden.W4_hasDerivAt a b ha.le hb 1).continuousAt,
    fun x => HolzapfelOgden.W4_hasDerivAt a b ha.le hb x,
    fun x hx => HolzapfelOgden.W4_d1_zero a b hx,
    fun x hx => HolzapfelOgden.W4_d1_hasDerivAt a b hx,
    fun x hx => HolzapfelOgden.W4_d2_lt a b hx,
    HolzapfelOgden.W4_d2_discont a b ha,
    fun x hx => HolzapfelOgden.W4_d2_contAt a b hx⟩

/-- Witness for C1 at the concrete parameters `a_f = b_f = 1`. -/
theorem holzapfel_W4_gating_witness :
    ((0 : ℝ) < 1 ∧ (0 : ℝ) < 1) ∧
    ((∀ x : ℝ, x ≤ 1 → HolzapfelOgden.W_4 1 1 x 0 = 0) ∧
     (∀ x : ℝ, 1 < x → HolzapfelOgden.W_4 1 1 x 0 =
        (1 : ℝ) / (2 * 1) * (Real.exp (1 * (x - 1) ^ 2) - 1)) ∧
     StrictMonoOn (fun x => HolzapfelOgden.W_4 1 1 x 0) (Set.Ioi 1) ∧
     ContinuousAt (fun x => HolzapfelOgden.W_4 1 1 x 0) 1 ∧
     (∀ x : ℝ, HasDerivAt (fun y => HolzapfelOgden.W_4 1 1 y 0)
        (HolzapfelOgden.W_4 1 1 x 1) x) ∧
     (∀ x : ℝ, x ≤ 1 → HolzapfelOgden.W_4 1 1 x 1 = 0) ∧
     (∀ x : ℝ, x ≠ 1 → HasDerivAt (fun y => HolzapfelOgden.W_4 1 1 y 1)
        (HolzapfelOgden.W_4 1 1 x 2) x) ∧
     (∀ x : ℝ, x < 1 → HolzapfelOgden.W_4 1 1 x 2 = 0) ∧
     ¬ ContinuousAt (fun x => HolzapfelOgden.W_4 1 1 x 2) 1 ∧
     (∀ x : ℝ, x ≠ 1 → ContinuousAt (fun y => HolzapfelOgden.W_4 1 1 y 2) x)) :=
  ⟨⟨one_pos, one_pos⟩, holzapfel_W4_gating 1 1 one_pos one_pos⟩

end PulseAdjoint
